import Mathlib

/-!
# Verification of the LALRPOP table-driven parse-table compiler

A shallow embedding of `src/lalrpop/src/lr1/codegen/parse_table.rs`: the
parse-table builder (`write_parse_table` / `write_reduction`), the reduce-index
assignment (`new_table_driven`), the reduction emitter (`emit_reduce_actions` /
`emit_reduce_action`), the generated driver's token classification and EOF
loop (`write_parser_fn`, `token_to_integer`), and the variant-name synthesis
(`variant_name_for_symbol`).

Identifiers (TerminalString / NonterminalString) are modelled as `String`,
state indices as `Nat`, table entries as `Int` (the generated tables are
`i32`), runtime token data and semantic values as `Nat` (they are opaque to
this code), and source locations as an arbitrary inhabited type `L`.
-/

namespace LalrpopTable

/-- `grammar::repr::Symbol`: a terminal or nonterminal reference. -/
inductive Symbol where
  | Terminal : String → Symbol
  | Nonterminal : String → Symbol
deriving DecidableEq, Repr

/-- `lr1::lookahead::Token`: the lookahead alphabet (a terminal or EOF). -/
inductive Token where
  | Terminal : String → Token
  | EOF : Token
deriving DecidableEq, Repr

/-- `grammar::repr::Production`: owning nonterminal, right-hand-side symbols,
and the index of the semantic action function. -/
structure Production where
  nonterminal : String
  symbols : List Symbol
  action : Nat
deriving DecidableEq, Repr

/-- The slice of `grammar::repr::Grammar` this code reads: `terminals.all`
(declaration order), the ordered nonterminal map with each nonterminal's
productions (declaration order), the start symbol, and the per-terminal
token pattern (`grammar.pattern(terminal)` with all subpatterns wildcarded,
so it tests only the token's shape). -/
structure Grammar where
  terminals : List String
  nonterminals : List (String × List Production)
  startSymbol : String
  termPattern : String → Nat → Bool

/-- `lr1::core::LR1State`: shift edges (terminal → target state index), goto
edges (nonterminal → target state index) and the ordered reduction list
(lookahead token set, production). The maps are modelled as association
lists with unique keys; `Map::get` is `List.lookup`. -/
structure LR1State where
  shifts : List (String × Nat)
  gotos : List (String × Nat)
  reductions : List (List Token × Production)

/-- The production enumeration of `new_table_driven` (lines 203-209):
`grammar.nonterminals.values().flat_map(|nt| &nt.productions)`. -/
def Grammar.allProductions (g : Grammar) : List Production :=
  (g.nonterminals.map Prod.snd).flatten

/-- The reduce-index map of `new_table_driven`: the enumeration above zipped
with `0..` and collected into a map keyed by (address-stable) production.
Looking up a production returns its position in the enumeration. -/
def Grammar.reduceIndex (g : Grammar) (p : Production) : Nat :=
  g.allProductions.indexOf p

/-- `grammar.nonterminals.keys()` collected, as in `all_nonterminals`. -/
def Grammar.allNonterminals (g : Grammar) : List String :=
  g.nonterminals.map Prod.fst

/-- `write_reduction` (lines 322-335): scan the state's reductions for the
first entry whose lookahead set contains `token`; emit `-(reduce_index + 1)`
if found, else `0`. -/
def writeReduction (g : Grammar) (s : LR1State) (token : Token) : Int :=
  match (s.reductions.filter (fun r => r.1.contains token)).head? with
  | some (_, p) => -((g.reduceIndex p : Int) + 1)
  | none => 0

/-- One ACTION row (lines 281-289): for each terminal in declaration order,
`target_state_index + 1` if the state has a shift edge for it, otherwise the
result of the reduction scan. -/
def actionRow (g : Grammar) (s : LR1State) : List Int :=
  g.terminals.map (fun t =>
    match s.shifts.lookup t with
    | some newState => (newState : Int) + 1
    | none => writeReduction g s (Token.Terminal t))

/-- The flat ACTION table (lines 269-292): rows in state-index order. -/
def actionTable (g : Grammar) (states : List LR1State) : List Int :=
  (states.map (actionRow g)).flatten

/-- The EOF_ACTION table (lines 295-302): one entry per state, the reduction
scan applied to `Token::EOF`. -/
def eofActionTable (g : Grammar) (states : List LR1State) : List Int :=
  states.map (fun s => writeReduction g s Token.EOF)

/-- One GOTO row (lines 306-315): for each nonterminal in declaration order,
`target_state_index + 1` for a goto edge, else `0`. -/
def gotoRow (g : Grammar) (s : LR1State) : List Int :=
  g.allNonterminals.map (fun nt =>
    match s.gotos.lookup nt with
    | some newState => (newState : Int) + 1
    | none => 0)

/-- The flat GOTO table (lines 305-317): rows in state-index order. -/
def gotoTable (g : Grammar) (states : List LR1State) : List Int :=
  (states.map (gotoRow g)).flatten

/-- The ACTION entry at row `si`, column `ti`: the flat-table lookup
`ACTION[state * num_terminals + integer]` performed by the generated driver
(lines 372-378). -/
def actionAt (g : Grammar) (states : List LR1State) (si ti : Nat) : Option Int :=
  (actionTable g states)[si * g.terminals.length + ti]?

/-- The GOTO entry at row `si`, column `ni`: the flat-table lookup
`GOTO[state * num_nonterminals + nonterminal]` performed by the generated
reduce function (lines 613-619). -/
def gotoAt (g : Grammar) (states : List LR1State) (si ni : Nat) : Option Int :=
  (gotoTable g states)[si * g.nonterminals.length + ni]?

/-- Modelled from the spec: `util::Escape` is not under src/. The spec
requires variant names to be "derived deterministically from the symbol's
identifier" and injective, so the identifier encoding is modelled as the
identity encoding (deterministic and injective). -/
def escape (s : String) : String := s

/-- `variant_name_for_symbol` (lines 765-770): a fixed kind prefix (`Nt` for
nonterminals, `Term` for terminals) followed by the escaped identifier. -/
def variantNameForSymbol : Symbol → String
  | Symbol.Nonterminal nt => "Nt" ++ escape nt
  | Symbol.Terminal t => "Term" ++ escape t

/-- `write_value_type_defn` (lines 239-264): the variant names of the
synthesized `Symbol` enum, one per terminal then one per nonterminal, in
declaration order. -/
def valueTypeVariantNames (g : Grammar) : List String :=
  g.terminals.map (fun t => variantNameForSymbol (Symbol.Terminal t)) ++
    g.allNonterminals.map (fun nt => variantNameForSymbol (Symbol.Nonterminal nt))

/-- Modelled from the spec: `lalrpop_util::ParseError` is not under src/.
The spec lists three variants: `UnrecognizedToken{token, expected}`,
`UnrecognizedEOF`, and `User{error}`. The generated driver under src/ only
ever constructs `UnrecognizedToken` (with `token: Some(..)` or `None`) and
`User`. `L` is the location type, `E` the user error type; runtime token
data is `Nat`. -/
inductive ParseError (L E : Type) where
  | UnrecognizedToken (token : Option (L × Nat × L)) (expected : List String)
  | UnrecognizedEOF
  | User (error : E)
deriving DecidableEq

/-- A spanned symbol value on the runtime value stack: a `(L, Symbol, L)`
triple where the middle component is the tagged-union value, modelled as its
variant tag (which symbol's variant — names are injective, so tags are in
bijection with symbols) paired with an opaque `Nat` payload. -/
abbrev SpannedValue (L : Type) := L × (Symbol × Nat) × L

/-- The semantic action functions (`action_module`, external): `run` is
called with the popped payloads for a production with symbols; `runEmpty`
is called with the computed start/end locations for an empty production
(lines 692-696). A fallible action may return an error of the parse-error
type (line 711: `Err(e) => return Some(Err(e))`); an infallible action is
the special case that never errs. -/
structure ActionEnv (L E : Type) where
  run : Nat → List Nat → Except (ParseError L E) Nat
  runEmpty : Nat → L → L → Except (ParseError L E) Nat

/-- A generated downcast function `pop_{variant}` (lines 788-822): pop the
top of the value stack (`None` models the `unwrap` panic on an empty stack),
and match its tag against the expected variant (`None` models the
`panic!("symbol type mismatch")`). Returns the `(L, payload, L)` triple and
the remaining stack. Stack top is the list's last element, as in `Vec`. -/
def popSymbol {L : Type} (expected : Symbol) (symbols : List (SpannedValue L)) :
    Option ((L × Nat × L) × List (SpannedValue L)) :=
  match symbols.getLast? with
  | none => none
  | some (l, tv, r) =>
    if tv.1 = expected then some ((l, tv.2, r), symbols.dropLast) else none

/-- Pop one value per symbol of `revSyms`, in the given order (the reversed
declaration order, as `emit_reduce_action` lines 640-650 pops
`production.symbols.iter().enumerate().rev()`). Returns the popped
`(L, payload, L)` triples re-aligned to declaration order, plus the
remaining stack. -/
def popSymsRev {L : Type} : List Symbol → List (SpannedValue L) →
    Option (List (L × Nat × L) × List (SpannedValue L))
  | [], symbols => some ([], symbols)
  | s :: rest, symbols =>
    match popSymbol s symbols with
    | none => none
    | some (v, symbols1) =>
      match popSymsRev rest symbols1 with
      | none => none
      | some (vs, symbols2) => some (vs ++ [v], symbols2)

/-- The pops performed by `emit_reduce_action` for a production whose
right-hand side is `syms`: pop in reverse declaration order. -/
def popSyms {L : Type} (syms : List Symbol) (symbols : List (SpannedValue L)) :
    Option (List (L × Nat × L) × List (SpannedValue L)) :=
  popSymsRev syms.reverse symbols

/-- The start span of a reduction (lines 655-673): the start location of the
syntactically first popped symbol (`sym0.0`) if any symbol was popped,
otherwise the end location (`s.2`) of the value on top of the remaining
stack, or the location default if that stack is empty. -/
def reduceStartLoc {L : Type} [Inhabited L] (syms : List (L × Nat × L))
    (symbols : List (SpannedValue L)) : L :=
  match syms.head? with
  | some v => v.1
  | none =>
    match symbols.getLast? with
    | some s => s.2.2
    | none => default

/-- The end span of a reduction (lines 675-688): the end location of the
last popped symbol (`symk.2`) if any symbol was popped, otherwise the
lookahead start location if available, else the start span. -/
def reduceEndLoc {L : Type} (syms : List (L × Nat × L)) (lookaheadStart : Option L)
    (start : L) : L :=
  match syms.getLast? with
  | some v => v.2.2
  | none =>
    match lookaheadStart with
    | some l => l
    | none => start

/-- The action invocation of `emit_reduce_action` (lines 690-723): the popped
payloads are passed for a nonempty production; for an empty production the
computed start/end locations are passed instead. -/
def invokeAction {L E : Type} (env : ActionEnv L E) (p : Production)
    (syms : List (L × Nat × L)) (start endLoc : L) : Except (ParseError L E) Nat :=
  match syms with
  | [] => env.runEmpty p.action start endLoc
  | _ => env.run p.action (syms.map (fun v => v.2.1))

/-- Result of one generated reduce match arm (`emit_reduce_action`): an
early `return Some(Ok(v))` for the start production, an early
`return Some(Err(e))` from a fallible action, or a fall-through carrying the
nonterminal's GOTO column index; each carries both stacks as the arm left
them. -/
inductive ArmResult (L E : Type) where
  | Accept (v : Nat) (states : List Int) (symbols : List (SpannedValue L))
  | Fail (e : ParseError L E) (states : List Int) (symbols : List (SpannedValue L))
  | FallThrough (ntIndex : Nat) (states : List Int) (symbols : List (SpannedValue L))

/-- One generated reduce match arm (`emit_reduce_action`, lines 637-763):
pop the production's symbols in reverse order, compute the start/end span,
invoke the action, return immediately for the start symbol, and otherwise
truncate the state stack by `k`, push the tagged nonterminal value with the
computed span, and yield the nonterminal's position among the grammar's
nonterminals (`None` models the pop/downcast and `position().unwrap()`
panics). -/
def reduceArm {L E : Type} [Inhabited L] (g : Grammar) (env : ActionEnv L E)
    (p : Production) (lookaheadStart : Option L) (states : List Int)
    (symbols : List (SpannedValue L)) : Option (ArmResult L E) :=
  match popSyms p.symbols symbols with
  | none => none
  | some (syms, symbols1) =>
    let start := reduceStartLoc syms symbols1
    let endLoc := reduceEndLoc syms lookaheadStart start
    match invokeAction env p syms start endLoc with
    | Except.error e => some (ArmResult.Fail e states symbols1)
    | Except.ok nt =>
      if p.nonterminal = g.startSymbol then
        some (ArmResult.Accept nt states symbols1)
      else
        let states1 := states.take (states.length - p.symbols.length)
        let symbols2 :=
          symbols1 ++ [(start, (Symbol.Nonterminal p.nonterminal, nt), endLoc)]
        match g.allNonterminals.findIdx? (fun x => x = p.nonterminal) with
        | none => none
        | some idx => some (ArmResult.FallThrough idx states1 symbols2)

/-- The match arms of the generated `reduce` function (`emit_reduce_actions`
lines 596-604): the same production enumeration as `new_table_driven`,
written independently at lines 596-600, zipped with `1..`. -/
def Grammar.allProductionsEmit (g : Grammar) : List Production :=
  (g.nonterminals.map Prod.snd).flatten

/-- The generated `match -action { 1 => .., 2 => .., _ => panic }` dispatch:
the arm whose literal equals `-action` wins; `none` models the
`panic!("invalid action code")` default arm (lines 592-607). -/
def reduceDispatch (g : Grammar) (action : Int) : Option Production :=
  ((g.allProductionsEmit.enumFrom 1).find?
      (fun arm => (arm.1 : Int) == -action)).map Prod.snd

/-- Result of one call of the generated `reduce` function: `Return r` models
`Some(r)` (the driver returns `r` as the overall parse result), `Continue`
models `None` (the driver keeps looping); stacks are carried explicitly. -/
inductive ReduceFnResult (L E : Type) where
  | Return (r : Except (ParseError L E) Nat) (states : List Int)
      (symbols : List (SpannedValue L))
  | Continue (states : List Int) (symbols : List (SpannedValue L))

/-- The generated `reduce` function (`emit_reduce_actions`, lines 568-634):
dispatch on `-action`, run the production's arm, and on fall-through read the
new top state, look up `GOTO[state * num_nonterminals + nt] - 1` and push it.
`none` models the panics (invalid action code, arm panics, `last().unwrap()`
on an empty state stack, out-of-bounds table index — a negative `i32` top
state cast `as usize` wraps far out of bounds, hence also `none`). -/
def reduceFn {L E : Type} [Inhabited L] (g : Grammar) (statesAut : List LR1State)
    (env : ActionEnv L E) (action : Int) (lookaheadStart : Option L)
    (states : List Int) (symbols : List (SpannedValue L)) :
    Option (ReduceFnResult L E) :=
  match reduceDispatch g action with
  | none => none
  | some p =>
    match reduceArm g env p lookaheadStart states symbols with
    | none => none
    | some (ArmResult.Accept v st sy) =>
      some (ReduceFnResult.Return (Except.ok v) st sy)
    | some (ArmResult.Fail e st sy) =>
      some (ReduceFnResult.Return (Except.error e) st sy)
    | some (ArmResult.FallThrough ntIdx st sy) =>
      match st.getLast? with
      | none => none
      | some top =>
        match top with
        | Int.negSucc _ => none
        | Int.ofNat topN =>
          match (gotoTable g statesAut)[topN * g.nonterminals.length + ntIdx]? with
          | none => none
          | some gv => some (ReduceFnResult.Continue (st ++ [gv - 1]) sy)

/-- Result of one iteration of the generated EOF loop: `Done r` models a
`return r` out of the parser function, `Continue` another trip around the
loop. -/
inductive EofStepResult (L E : Type) where
  | Done (r : Except (ParseError L E) Nat)
  | Continue (states : List Int) (symbols : List (SpannedValue L))

/-- One iteration of the generated EOF-draining loop (`write_parser_fn`
lines 441-482): read the top state, look up `EOF_ACTION[state]`; if negative
call `reduce` (returning its `Some` result, else continuing); otherwise
`return Err(ParseError::UnrecognizedToken { token: None, expected: vec![] })`
(lines 473-479). `none` models the `unwrap`/indexing panics. -/
def eofLoopStep {L E : Type} [Inhabited L] (g : Grammar) (statesAut : List LR1State)
    (env : ActionEnv L E) (states : List Int) (symbols : List (SpannedValue L)) :
    Option (EofStepResult L E) :=
  match states.getLast? with
  | none => none
  | some top =>
    match top with
    | Int.negSucc _ => none
    | Int.ofNat topN =>
      match (eofActionTable g statesAut)[topN]? with
      | none => none
      | some action =>
        if action < 0 then
          match reduceFn g statesAut env action none states symbols with
          | none => none
          | some (ReduceFnResult.Return r _ _) => some (EofStepResult.Done r)
          | some (ReduceFnResult.Continue st sy) =>
            some (EofStepResult.Continue st sy)
        else
          some (EofStepResult.Done (Except.error
            (ParseError.UnrecognizedToken none [])))

/-- `token_to_integer` (lines 507-528): one match arm per terminal in
declaration order testing the wildcarded pattern against the token's shape
(the middle component of the lookahead triple); the first matching arm yields
that terminal's index; the default arm returns
`Err(ParseError::UnrecognizedToken { token: Some(lookahead), expected: vec![] })`. -/
def tokenToInteger {L E : Type} (g : Grammar) (lookahead : L × Nat × L) :
    Except (ParseError L E) Nat :=
  match g.terminals.enum.find? (fun ti => g.termPattern ti.2 lookahead.2.1) with
  | some ti => Except.ok ti.1
  | none => Except.error (ParseError.UnrecognizedToken (some lookahead) [])

/-- Result of the head of the generated shift loop: break into the EOF loop,
return an error, or enter the inner (table-lookup) loop with the classified
terminal index. -/
inductive ShiftStepResult (L E : Type) where
  | BreakToEof
  | Return (r : Except (ParseError L E) Nat)
  | EnterInner (lookahead : L × Nat × L) (integer : Nat)
      (rest : List (Except E (L × Nat × L)))

/-- The head of the generated shift loop (`write_parser_fn` lines 352-359,
`next_token` lines 487-505, then `token_to_integer`): pull the next stream
item (`None` breaks to the EOF loop; a stream error is wrapped as
`ParseError::User` — the `intern_token: None` configuration), then classify
the token. All of this happens before the inner loop performs any ACTION
table lookup. -/
def shiftStep {L E : Type} (g : Grammar)
    (tokens : List (Except E (L × Nat × L))) : ShiftStepResult L E :=
  match tokens with
  | [] => ShiftStepResult.BreakToEof
  | Except.error e :: _ =>
    ShiftStepResult.Return (Except.error (ParseError.User e))
  | Except.ok lookahead :: rest =>
    match tokenToInteger g lookahead with
    | Except.error pe => ShiftStepResult.Return (Except.error pe)
    | Except.ok i => ShiftStepResult.EnterInner lookahead i rest

/-! ## Concrete inputs (the spec's end-to-end scenario grammar)

One terminal `"a"`, one nonterminal `S` (the start symbol) with the single
production `S -> "a"`; state 0 shifts `"a"` to state 1; state 1 reduces
`S -> "a"` on EOF. -/

def prodSA : Production := { nonterminal := "S", symbols := [Symbol.Terminal "a"], action := 0 }

def gA : Grammar :=
  { terminals := ["a"]
    nonterminals := [("S", [prodSA])]
    startSymbol := "S"
    termPattern := fun t tok => t == "a" && tok == 0 }

def s0A : LR1State := { shifts := [("a", 1)], gotos := [], reductions := [] }

def s1A : LR1State := { shifts := [], gotos := [], reductions := [([Token.EOF], prodSA)] }

def statesA : List LR1State := [s0A, s1A]

def envA : ActionEnv Nat Nat :=
  { run := fun _ args => Except.ok (args.headD 0)
    runEmpty := fun _ _ _ => Except.ok 0 }

/-! ## Helper lemmas -/

/-- Length of a flattened map with constant row length. -/
theorem length_flatten_map_const {α β : Type _} (f : α → List β) (l : List α)
    (T : Nat) (hT : ∀ a ∈ l, (f a).length = T) :
    ((l.map f).flatten).length = l.length * T := by
  induction l with
  | nil => simp
  | cons a l ih =>
    simp only [List.map_cons, List.flatten_cons, List.length_append, List.length_cons]
    rw [hT a (by simp), ih (fun x hx => hT x (by simp [hx]))]
    ring

/-- Flat (row-major) indexing into a flattened map with constant row
length: entry `i * T + j` is entry `j` of row `i`. -/
theorem getElem?_flatten_map_const {α β : Type _} (f : α → List β) (l : List α)
    (T : Nat) (hT : ∀ a ∈ l, (f a).length = T) (i j : Nat)
    (hi : i < l.length) (hj : j < T) :
    ((l.map f).flatten)[i * T + j]? = (f (l.get ⟨i, hi⟩))[j]? := by
  induction l generalizing i with
  | nil => simp at hi
  | cons a l ih =>
    cases i with
    | zero =>
      simp only [List.map_cons, List.flatten_cons, Nat.zero_mul, Nat.zero_add]
      rw [List.getElem?_append_left (by rw [hT a (by simp)]; exact hj)]
      rfl
    | succ i =>
      simp only [List.map_cons, List.flatten_cons]
      have hlen : (f a).length = T := hT a (by simp)
      have hidx : (i + 1) * T + j = (f a).length + (i * T + j) := by
        rw [hlen]; ring
      rw [hidx, List.getElem?_append_right (by omega)]
      have hsub : (f a).length + (i * T + j) - (f a).length = i * T + j := by omega
      rw [hsub]
      exact ih (fun x hx => hT x (by simp [hx])) i (by simpa using hi)

/-- If everything in `l.take i` fails `p`, the element at the head of
`l.drop i` satisfies `p`, then it is the head of `l.filter p`. -/
theorem head?_filter_of_first {α : Type _} (p : α → Bool) (l : List α) (i : Nat)
    (a : α) (h1 : ∀ x ∈ l.take i, p x = false) (h2 : (l.drop i).head? = some a)
    (h3 : p a = true) : (l.filter p).head? = some a := by
  induction l generalizing i with
  | nil => rw [List.drop_nil] at h2; simp at h2
  | cons x l ih =>
    cases i with
    | zero =>
      simp only [List.drop_zero, List.head?_cons, Option.some.injEq] at h2
      subst h2
      simp [List.filter_cons, h3]
    | succ i =>
      have hx : p x = false := h1 x (by simp)
      rw [List.filter_cons_of_neg (by simp [hx])]
      exact ih i (fun y hy => h1 y (by simp [hy])) (by simpa using h2)

/-- If nothing in `l` satisfies `p`, the filter is empty. -/
theorem head?_filter_of_none {α : Type _} (p : α → Bool) (l : List α)
    (h : ∀ x ∈ l, p x = false) : (l.filter p).head? = none := by
  have : l.filter p = [] := List.filter_eq_nil_iff.2 (by simpa using h)
  simp [this]

/-- `find?` over an enumeration, searching by element predicate: the first
index whose element satisfies the predicate wins. -/
theorem find?_enumFrom_of_first {α : Type _} (p : α → Bool) (l : List α)
    (k i : Nat) (hi : i < l.length) (h : p (l.get ⟨i, hi⟩) = true)
    (hb : ∀ j (hj : j < i), p (l.get ⟨j, by omega⟩) = false) :
    (l.enumFrom k).find? (fun x => p x.2) = some (k + i, l.get ⟨i, hi⟩) := by
  induction l generalizing k i with
  | nil => simp at hi
  | cons a l ih =>
    cases i with
    | zero =>
      simp only [List.get] at h
      simp [List.enumFrom, List.find?_cons, h]
    | succ i =>
      have ha : p a = false := hb 0 (Nat.succ_pos i)
      simp only [List.enumFrom, List.find?_cons, ha]
      have := ih (k + 1) i (by simpa using hi) (by simpa using h)
        (fun j hj => by
          have := hb (j + 1) (by omega)
          simpa using this)
      rw [this, List.get_cons_succ]
      have hkk : k + 1 + i = k + (i + 1) := by omega
      rw [hkk]

/-- `find?` over an enumeration, searching by index: the arm whose label is
`k + i` selects element `i`. -/
theorem find?_enumFrom_of_key {α : Type _} (l : List α) (k i : Nat)
    (hi : i < l.length) (n : Int) (hn : n = ((k + i : Nat) : Int)) :
    (l.enumFrom k).find? (fun arm => (arm.1 : Int) == n) =
      some (k + i, l.get ⟨i, hi⟩) := by
  induction l generalizing k i with
  | nil => simp at hi
  | cons a l ih =>
    cases i with
    | zero =>
      simp only [Nat.add_zero] at hn
      subst hn
      simp [List.enumFrom, List.find?_cons]
    | succ i =>
      have hkf : ((k : Int) == n) = false := by
        rw [beq_eq_false_iff_ne]
        subst hn
        intro hcontra
        omega
      simp only [List.enumFrom, List.find?_cons, hkf]
      have := ih (k + 1) i (by simpa using hi) (by rw [hn]; push_cast; ring)
      rw [this, List.get_cons_succ]
      have hkk : k + 1 + i = k + (i + 1) := by omega
      rw [hkk]

/-- The first matching reduction characterizes the negative entry. -/
theorem writeReduction_of_first (g : Grammar) (s : LR1State) (token : Token)
    (i : Nat) (r : List Token × Production)
    (h1 : ∀ x ∈ s.reductions.take i, x.1.contains token = false)
    (h2 : (s.reductions.drop i).head? = some r)
    (h3 : r.1.contains token = true) :
    writeReduction g s token = -((g.reduceIndex r.2 : Int) + 1) := by
  obtain ⟨tset, p⟩ := r
  unfold writeReduction
  rw [head?_filter_of_first (fun x => x.1.contains token) s.reductions i
    (tset, p) h1 h2 h3]

/-- No matching reduction yields a zero entry. -/
theorem writeReduction_of_none (g : Grammar) (s : LR1State) (token : Token)
    (h : ∀ x ∈ s.reductions, x.1.contains token = false) :
    writeReduction g s token = 0 := by
  unfold writeReduction
  rw [head?_filter_of_none (fun x => x.1.contains token) s.reductions h]

/-- The flat ACTION entry at `(si, ti)` is the per-state, per-terminal value
of `write_parse_table`. -/
theorem actionAt_lookup (g : Grammar) (states : List LR1State) (si ti : Nat)
    (s : LR1State) (t : String) (hs : states[si]? = some s)
    (ht : g.terminals[ti]? = some t) :
    actionAt g states si ti =
      some (match s.shifts.lookup t with
            | some newState => (newState : Int) + 1
            | none => writeReduction g s (Token.Terminal t)) := by
  obtain ⟨hsi, hseq⟩ := List.getElem?_eq_some.1 hs
  obtain ⟨hti, hteq⟩ := List.getElem?_eq_some.1 ht
  unfold actionAt actionTable
  rw [getElem?_flatten_map_const (actionRow g) states g.terminals.length
    (fun x _ => by simp [actionRow]) si ti hsi hti]
  unfold actionRow
  rw [List.getElem?_map]
  rw [show states.get ⟨si, hsi⟩ = s from by rw [List.get_eq_getElem, hseq]]
  rw [List.getElem?_eq_some.2 ⟨hti, hteq⟩]
  rfl

/-- The flat GOTO entry at `(si, ni)` is the per-state, per-nonterminal value
of `write_parse_table`. -/
theorem gotoAt_lookup (g : Grammar) (states : List LR1State) (si ni : Nat)
    (s : LR1State) (nt : String) (hs : states[si]? = some s)
    (hnt : g.allNonterminals[ni]? = some nt) :
    gotoAt g states si ni =
      some (match s.gotos.lookup nt with
            | some newState => (newState : Int) + 1
            | none => 0) := by
  obtain ⟨hsi, hseq⟩ := List.getElem?_eq_some.1 hs
  obtain ⟨hni, hnteq⟩ := List.getElem?_eq_some.1 hnt
  have hlen : g.allNonterminals.length = g.nonterminals.length := by
    simp [Grammar.allNonterminals]
  unfold gotoAt gotoTable
  rw [getElem?_flatten_map_const (gotoRow g) states g.nonterminals.length
    (fun x _ => by simp [gotoRow, Grammar.allNonterminals]) si ni hsi (by omega)]
  unfold gotoRow
  rw [List.getElem?_map]
  rw [show states.get ⟨si, hsi⟩ = s from by rw [List.get_eq_getElem, hseq]]
  rw [List.getElem?_eq_some.2 ⟨hni, hnteq⟩]
  rfl

/-- The EOF_ACTION entry at `si` is the EOF reduction scan for state `si`. -/
theorem eofActionAt_lookup (g : Grammar) (states : List LR1State) (si : Nat)
    (s : LR1State) (hs : states[si]? = some s) :
    (eofActionTable g states)[si]? = some (writeReduction g s Token.EOF) := by
  unfold eofActionTable
  rw [List.getElem?_map, hs]
  rfl

/-! ## Claim theorems -/

/-- C1: for every state `s` (in index order) and terminal `t` (in grammar
declaration order), the ACTION entry at row `s`, column `t` is
`target_state_index + 1` when `s` has a shift edge for `t` (regardless of any
reduction in `s` whose lookahead set also contains `t`); otherwise it is
`-(reduce_index + 1)` for the first reduction of `s` whose lookahead set
contains `Token::Terminal(t)`; otherwise it is `0`. -/
theorem action_table_entries (g : Grammar) (states : List LR1State)
    (si ti : Nat) (s : LR1State) (t : String)
    (hs : states[si]? = some s) (ht : g.terminals[ti]? = some t) :
    (∀ ns : Nat, s.shifts.lookup t = some ns →
        actionAt g states si ti = some ((ns : Int) + 1))
    ∧ (s.shifts.lookup t = none →
        (∀ i r, (∀ x ∈ s.reductions.take i,
              x.1.contains (Token.Terminal t) = false) →
            (s.reductions.drop i).head? = some r →
            r.1.contains (Token.Terminal t) = true →
            actionAt g states si ti =
              some (-((g.reduceIndex r.2 : Int) + 1)))
        ∧ ((∀ r ∈ s.reductions, r.1.contains (Token.Terminal t) = false) →
            actionAt g states si ti = some 0))
    ∧ (∀ (ns : Nat) reds, s.shifts.lookup t = some ns →
        (actionRow g { s with reductions := reds })[ti]? =
          some ((ns : Int) + 1)) := by
  refine ⟨?_, ?_, ?_⟩
  · intro ns hlk
    rw [actionAt_lookup g states si ti s t hs ht, hlk]
  · intro hlk
    constructor
    · intro i r h1 h2 h3
      rw [actionAt_lookup g states si ti s t hs ht, hlk,
        writeReduction_of_first g s (Token.Terminal t) i r h1 h2 h3]
    · intro hnone
      rw [actionAt_lookup g states si ti s t hs ht, hlk,
        writeReduction_of_none g s (Token.Terminal t) hnone]
  · intro ns reds hlk
    obtain ⟨hti, hteq⟩ := List.getElem?_eq_some.1 ht
    unfold actionRow
    rw [List.getElem?_map, List.getElem?_eq_some.2 ⟨hti, hteq⟩]
    simp only [Option.map_some']
    rw [hlk]

/-- C1 witness: in the scenario automaton, state 0 has a shift edge on `"a"`
to state 1, so the ACTION entry at row 0, column 0 is `2`. -/
theorem action_table_entries_witness :
    actionAt gA statesA 0 0 = some 2 :=
  (action_table_entries gA statesA 0 0 s0A "a" rfl rfl).1 1 rfl

/-- C4: for every state and every token (a terminal without a shift edge in
that state, or EOF), the reduction selected for the table entry, if any, is
the first reduction of the state in declaration order whose lookahead set
contains the token; if no reduction's lookahead set contains the token the
entry is `0`. -/
theorem reduce_selection_first_match (g : Grammar) (states : List LR1State)
    (si : Nat) (s : LR1State) (hs : states[si]? = some s) :
    ((∀ i r, (∀ x ∈ s.reductions.take i, x.1.contains Token.EOF = false) →
        (s.reductions.drop i).head? = some r →
        r.1.contains Token.EOF = true →
        (eofActionTable g states)[si]? =
          some (-((g.reduceIndex r.2 : Int) + 1)))
     ∧ ((∀ r ∈ s.reductions, r.1.contains Token.EOF = false) →
        (eofActionTable g states)[si]? = some 0))
    ∧ (∀ ti t, g.terminals[ti]? = some t → s.shifts.lookup t = none →
        (∀ i r, (∀ x ∈ s.reductions.take i,
              x.1.contains (Token.Terminal t) = false) →
            (s.reductions.drop i).head? = some r →
            r.1.contains (Token.Terminal t) = true →
            actionAt g states si ti =
              some (-((g.reduceIndex r.2 : Int) + 1)))
        ∧ ((∀ r ∈ s.reductions, r.1.contains (Token.Terminal t) = false) →
            actionAt g states si ti = some 0)) := by
  refine ⟨⟨?_, ?_⟩, ?_⟩
  · intro i r h1 h2 h3
    rw [eofActionAt_lookup g states si s hs,
      writeReduction_of_first g s Token.EOF i r h1 h2 h3]
  · intro hnone
    rw [eofActionAt_lookup g states si s hs,
      writeReduction_of_none g s Token.EOF hnone]
  · intro ti t ht hlk
    constructor
    · intro i r h1 h2 h3
      rw [actionAt_lookup g states si ti s t hs ht, hlk,
        writeReduction_of_first g s (Token.Terminal t) i r h1 h2 h3]
    · intro hnone
      rw [actionAt_lookup g states si ti s t hs ht, hlk,
        writeReduction_of_none g s (Token.Terminal t) hnone]

/-- C4 witness: in the scenario automaton, state 1 has no shift on EOF and
its first (only) reduction's lookahead set contains EOF, so
`EOF_ACTION[1] = -(0 + 1) = -1`. -/
theorem reduce_selection_first_match_witness :
    (eofActionTable gA statesA)[1]? =
      some (-((gA.reduceIndex prodSA : Int) + 1)) :=
  (reduce_selection_first_match gA statesA 1 s1A rfl).1.1 0
    ([Token.EOF], prodSA) (by simp) rfl rfl

/-- C8: for `S` automaton states, `T` terminals and `N` nonterminals, the
ACTION table has exactly `S*T` entries in state-major order, EOF_ACTION has
exactly `S` entries (one per state: the reduction scan applied to
`Token::EOF`, `0` if none matches), and GOTO has exactly `S*N` entries
(`target_state_index + 1` for a goto edge, else `0`). -/
theorem table_shapes (g : Grammar) (states : List LR1State) :
    (actionTable g states).length = states.length * g.terminals.length
    ∧ (eofActionTable g states).length = states.length
    ∧ (gotoTable g states).length = states.length * g.nonterminals.length
    ∧ (∀ (si : Nat) (s : LR1State), states[si]? = some s →
        (eofActionTable g states)[si]? = some (writeReduction g s Token.EOF)
        ∧ ((∀ r ∈ s.reductions, r.1.contains Token.EOF = false) →
            (eofActionTable g states)[si]? = some 0))
    ∧ (∀ (si ni : Nat) (s : LR1State) (nt : String), states[si]? = some s →
        g.allNonterminals[ni]? = some nt →
        (∀ ns : Nat, s.gotos.lookup nt = some ns →
            gotoAt g states si ni = some ((ns : Int) + 1))
        ∧ (s.gotos.lookup nt = none → gotoAt g states si ni = some 0)) := by
  refine ⟨?_, ?_, ?_, ?_, ?_⟩
  · unfold actionTable
    exact length_flatten_map_const (actionRow g) states g.terminals.length
      (fun x _ => by simp [actionRow])
  · simp [eofActionTable]
  · unfold gotoTable
    exact length_flatten_map_const (gotoRow g) states g.nonterminals.length
      (fun x _ => by simp [gotoRow, Grammar.allNonterminals])
  · intro si s hs
    have he := eofActionAt_lookup g states si s hs
    refine ⟨he, fun hnone => ?_⟩
    rw [he, writeReduction_of_none g s Token.EOF hnone]
  · intro si ni s nt hs hnt
    constructor
    · intro ns hlk
      rw [gotoAt_lookup g states si ni s nt hs hnt, hlk]
    · intro hlk
      rw [gotoAt_lookup g states si ni s nt hs hnt, hlk]

/-- C8 witness: in the scenario automaton state 0 has no goto edge for `S`,
so `GOTO[0*1+0] = 0`. -/
theorem table_shapes_witness :
    gotoAt gA statesA 0 0 = some 0 :=
  ((table_shapes gA statesA).2.2.2.2 0 0 s0A "S" rfl rfl).2 rfl

/-- A negative `write_reduction` result is `-(reduce_index + 1)` for one of
the state's reductions. -/
theorem writeReduction_neg_inv (g : Grammar) (st : LR1State) (token : Token)
    (e : Int) (heq : writeReduction g st token = e) (hneg : e < 0) :
    ∃ r ∈ st.reductions, -e = (g.reduceIndex r.2 : Int) + 1 := by
  unfold writeReduction at heq
  cases hred : (st.reductions.filter (fun r => r.1.contains token)).head? with
  | none =>
    rw [hred] at heq
    simp only at heq
    omega
  | some r =>
    obtain ⟨tset, p⟩ := r
    rw [hred] at heq
    simp only at heq
    have hrmem : (tset, p) ∈ st.reductions :=
      (List.mem_filter.1 (List.mem_of_mem_head? (Option.mem_def.2 hred))).1
    refine ⟨(tset, p), hrmem, ?_⟩
    show -e = (g.reduceIndex p : Int) + 1
    omega

/-- C2: the reduce index map is a total, injective mapping from the
grammar's productions onto the dense range `[0, P)` (P the production
count), assigned by iterating nonterminals in declaration order and each
one's productions in declaration order; this index plus one is the magnitude
of every negative ACTION and EOF_ACTION entry. -/
theorem reduce_index_map_spec (g : Grammar) (hnd : g.allProductions.Nodup) :
    (∀ p ∈ g.allProductions, g.reduceIndex p < g.allProductions.length)
    ∧ (∀ i (hi : i < g.allProductions.length),
        g.reduceIndex (g.allProductions.get ⟨i, hi⟩) = i)
    ∧ (∀ p ∈ g.allProductions, ∀ q ∈ g.allProductions,
        g.reduceIndex p = g.reduceIndex q → p = q)
    ∧ (∀ i, i < g.allProductions.length →
        ∃ p ∈ g.allProductions, g.reduceIndex p = i)
    ∧ (∀ states e, e ∈ actionTable g states → e < 0 →
        ∃ st ∈ states, ∃ r ∈ st.reductions,
          -e = (g.reduceIndex r.2 : Int) + 1)
    ∧ (∀ states e, e ∈ eofActionTable g states → e < 0 →
        ∃ st ∈ states, ∃ r ∈ st.reductions,
          -e = (g.reduceIndex r.2 : Int) + 1) := by
  refine ⟨?_, ?_, ?_, ?_, ?_, ?_⟩
  · intro p hp
    exact List.indexOf_lt_length.2 hp
  · intro i hi
    exact List.get_indexOf hnd ⟨i, hi⟩
  · intro p hp q hq h
    exact (List.indexOf_inj hp hq).1 h
  · intro i hi
    exact ⟨g.allProductions.get ⟨i, hi⟩, List.get_mem _ _ _,
      List.get_indexOf hnd ⟨i, hi⟩⟩
  · intro states e he hneg
    obtain ⟨row, hrow, herow⟩ := List.mem_flatten.1 he
    obtain ⟨st, hst, hrw⟩ := List.mem_map.1 hrow
    subst hrw
    obtain ⟨t, _, heq⟩ := List.mem_map.1 herow
    cases hlk : List.lookup t st.shifts with
    | some ns =>
      rw [hlk] at heq
      simp only at heq
      omega
    | none =>
      rw [hlk] at heq
      simp only at heq
      obtain ⟨r, hrmem, hre⟩ := writeReduction_neg_inv g st (Token.Terminal t) e heq hneg
      exact ⟨st, hst, r, hrmem, hre⟩
  · intro states e he hneg
    obtain ⟨st, hst, heq⟩ := List.mem_map.1 he
    obtain ⟨r, hrmem, hre⟩ := writeReduction_neg_inv g st Token.EOF e heq hneg
    exact ⟨st, hst, r, hrmem, hre⟩

/-- C2 witness: in the scenario grammar the single production `S -> "a"` is
mapped into the dense range. -/
theorem reduce_index_map_spec_witness :
    gA.reduceIndex prodSA < gA.allProductions.length :=
  (reduce_index_map_spec gA (by decide)).1 prodSA (by decide)

/-- C3: for every production, the reduce index used for the negative table
entries and the match-arm index emitted in the generated reduce function
agree: a table entry `-(i+1)` dispatches (via `match -action`) to the
reduction code of the production whose reduce index is `i`, for the table
writer's enumeration and the reduce emitter's independent enumeration
alike. -/
theorem reduce_dispatch_agreement (g : Grammar) (hnd : g.allProductions.Nodup) :
    (∀ i (hi : i < g.allProductions.length),
        reduceDispatch g (-((i : Int) + 1)) =
          some (g.allProductions.get ⟨i, hi⟩)
        ∧ g.reduceIndex (g.allProductions.get ⟨i, hi⟩) = i)
    ∧ (∀ p ∈ g.allProductions,
        reduceDispatch g (-((g.reduceIndex p : Int) + 1)) = some p) := by
  have key : ∀ i (hi : i < g.allProductions.length),
      reduceDispatch g (-((i : Int) + 1)) =
        some (g.allProductions.get ⟨i, hi⟩) := by
    intro i hi
    unfold reduceDispatch
    have hfind := find?_enumFrom_of_key g.allProductions 1 i hi
      (-(-((i : Int) + 1))) (by push_cast; ring)
    rw [show Grammar.allProductionsEmit g = g.allProductions from rfl, hfind]
    simp
  constructor
  · intro i hi
    exact ⟨key i hi, List.get_indexOf hnd ⟨i, hi⟩⟩
  · intro p hp
    have hi : g.allProductions.indexOf p < g.allProductions.length :=
      List.indexOf_lt_length.2 hp
    have := key (g.allProductions.indexOf p) hi
    rw [show g.reduceIndex p = g.allProductions.indexOf p from rfl, this,
      List.indexOf_get hi]

/-- C3 witness: in the scenario grammar, dispatching on the table entry for
`S -> "a"` (reduce index 0, entry `-1`) selects that very production. -/
theorem reduce_dispatch_agreement_witness :
    reduceDispatch gA (-((gA.reduceIndex prodSA : Int) + 1)) = some prodSA :=
  (reduce_dispatch_agreement gA (by decide)).2 prodSA (by decide)

/-- A `Term`-prefixed name never equals an `Nt`-prefixed name. -/
theorem term_prefix_ne_nt_prefix (x y : String) : "Term" ++ x ≠ "Nt" ++ y := by
  intro h
  have hd := congrArg String.data h
  rw [String.data_append, String.data_append] at hd
  rw [show "Term".data = ['T', 'e', 'r', 'm'] from rfl,
    show "Nt".data = ['N', 't'] from rfl] at hd
  simp only [List.cons_append, List.cons.injEq] at hd
  exact absurd hd.1 (by decide)

/-- String append is left-cancellative. -/
theorem string_append_left_cancel (a x y : String) (h : a ++ x = a ++ y) :
    x = y := by
  have hd := congrArg String.data h
  rw [String.data_append, String.data_append] at hd
  exact String.ext (List.append_cancel_left hd)

/-- C9: the variant-name assignment of the synthesized tagged-union symbol
type is deterministic and injective over all terminals and nonterminals:
terminal variants carry the fixed `Term` prefix, nonterminal variants the
fixed `Nt` prefix, so no terminal variant collides with a nonterminal
variant and no two distinct symbols of the same kind share a name. -/
theorem variant_name_assignment (g : Grammar)
    (ht : g.terminals.Nodup) (hn : g.allNonterminals.Nodup) :
    (∀ t n, variantNameForSymbol (Symbol.Terminal t) ≠
        variantNameForSymbol (Symbol.Nonterminal n))
    ∧ (∀ a b : Symbol, variantNameForSymbol a = variantNameForSymbol b → a = b)
    ∧ (valueTypeVariantNames g).Nodup := by
  have hcross : ∀ t n, variantNameForSymbol (Symbol.Terminal t) ≠
      variantNameForSymbol (Symbol.Nonterminal n) :=
    fun t n h => term_prefix_ne_nt_prefix (escape t) (escape n) h
  have hinj : ∀ a b : Symbol,
      variantNameForSymbol a = variantNameForSymbol b → a = b := by
    intro a b h
    cases a with
    | Terminal t =>
      cases b with
      | Terminal u =>
        exact congrArg Symbol.Terminal (string_append_left_cancel "Term" _ _ h)
      | Nonterminal n => exact absurd h (hcross t n)
    | Nonterminal m =>
      cases b with
      | Terminal u => exact absurd h.symm (hcross u m)
      | Nonterminal n =>
        exact congrArg Symbol.Nonterminal (string_append_left_cancel "Nt" _ _ h)
  refine ⟨hcross, hinj, ?_⟩
  unfold valueTypeVariantNames
  rw [List.nodup_append]
  refine ⟨?_, ?_, ?_⟩
  · refine List.Nodup.map ?_ ht
    intro a b hab
    have := hinj (Symbol.Terminal a) (Symbol.Terminal b) hab
    simpa using this
  · refine List.Nodup.map ?_ hn
    intro a b hab
    have := hinj (Symbol.Nonterminal a) (Symbol.Nonterminal b) hab
    simpa using this
  · intro x hx1 hx2
    obtain ⟨t, _, hxt⟩ := List.mem_map.1 hx1
    obtain ⟨n, _, hxn⟩ := List.mem_map.1 hx2
    exact hcross t n (hxt.trans hxn.symm)

/-- C9 witness: the scenario grammar's variant names are distinct. -/
theorem variant_name_assignment_witness :
    (valueTypeVariantNames gA).Nodup :=
  (variant_name_assignment gA (by decide) (by decide)).2.2

/-- C5 (amended): in the generated driver, whenever the token stream is
exhausted and `EOF_ACTION` for the current top-of-stack state is
non-negative, the parse fails with
`ParseError::UnrecognizedToken { token: None, expected: vec![] }` — the EOF
failure is signalled through the `UnrecognizedToken` variant with an absent
token, not through a distinct `UnrecognizedEOF` variant. -/
theorem eof_nonneg_unrecognized_token_none {L E : Type} [Inhabited L]
    (g : Grammar) (statesAut : List LR1State) (env : ActionEnv L E)
    (states : List Int) (symbols : List (SpannedValue L))
    (topN : Nat) (action : Int)
    (htop : states.getLast? = some (Int.ofNat topN))
    (hact : (eofActionTable g statesAut)[topN]? = some action)
    (hnn : 0 ≤ action) :
    eofLoopStep g statesAut env states symbols =
      some (EofStepResult.Done (Except.error
        (ParseError.UnrecognizedToken none []))) := by
  unfold eofLoopStep
  simp only [htop, hact]
  rw [if_neg (by omega)]

/-- C5 witness: the scenario automaton in state 0 with an exhausted stream
(`EOF_ACTION[0] = 0`) fails with `UnrecognizedToken { token: None }`. -/
theorem eof_nonneg_unrecognized_token_none_witness :
    eofLoopStep gA statesA envA [Int.ofNat 0] ([] : List (SpannedValue Nat)) =
      some (EofStepResult.Done (Except.error
        (ParseError.UnrecognizedToken none []))) :=
  eof_nonneg_unrecognized_token_none gA statesA envA [Int.ofNat 0] [] 0 0
    rfl rfl (by decide)

/-- C5 counterexample: at the concrete input of the spec's scenario 2 (empty
token stream, state 0, `EOF_ACTION[0] = 0 ≥ 0`), the generated driver
produces the `UnrecognizedToken` variant with `token: None`, which is a
different variant from `UnrecognizedEOF` — refuting the claim that the
failure uses the `UnrecognizedEOF` variant. -/
theorem eof_claim_counterexample :
    eofLoopStep gA statesA envA [Int.ofNat 0] ([] : List (SpannedValue Nat)) =
      some (EofStepResult.Done (Except.error
        (ParseError.UnrecognizedToken none [])))
    ∧ (ParseError.UnrecognizedToken (none : Option (Nat × Nat × Nat)) []
        ≠ (ParseError.UnrecognizedEOF : ParseError Nat Nat)) :=
  ⟨rfl, by decide⟩

/-- C6: when the reduced production's nonterminal is the grammar's start
symbol, the generated reduce logic returns the produced value immediately as
overall success after the `k` symbol pops: the state stack is left untouched
(no truncation, no GOTO lookup or state push) and nothing is pushed onto the
value stack. -/
theorem start_production_early_return {L E : Type} [Inhabited L]
    (g : Grammar) (statesAut : List LR1State) (env : ActionEnv L E)
    (p : Production) (action : Int) (lookaheadStart : Option L)
    (states : List Int) (symbols : List (SpannedValue L))
    (syms : List (L × Nat × L)) (symbols1 : List (SpannedValue L)) (v : Nat)
    (hdisp : reduceDispatch g action = some p)
    (hstart : p.nonterminal = g.startSymbol)
    (hpop : popSyms p.symbols symbols = some (syms, symbols1))
    (hact : invokeAction env p syms (reduceStartLoc syms symbols1)
        (reduceEndLoc syms lookaheadStart (reduceStartLoc syms symbols1)) =
      Except.ok v) :
    reduceFn g statesAut env action lookaheadStart states symbols =
      some (ReduceFnResult.Return (Except.ok v) states symbols1) := by
  unfold reduceFn reduceArm
  simp only [hdisp, hpop, hact, hstart, if_pos]

/-- C6 witness: reducing `S -> "a"` (the start production) with one popped
terminal value returns `Ok(5)` at once, leaving the state stack `[0, 1]`
untouched and the value stack emptied by the pop alone. -/
theorem start_production_early_return_witness :
    reduceFn gA statesA envA (-1) none [Int.ofNat 0, Int.ofNat 1]
        [((0 : Nat), (Symbol.Terminal "a", 5), (1 : Nat))] =
      some (ReduceFnResult.Return (Except.ok 5)
        [Int.ofNat 0, Int.ofNat 1] []) :=
  start_production_early_return gA statesA envA prodSA (-1) none
    [Int.ofNat 0, Int.ofNat 1] [((0 : Nat), (Symbol.Terminal "a", 5), (1 : Nat))]
    [((0 : Nat), (5 : Nat), (1 : Nat))] [] 5 rfl rfl rfl rfl

/-- Popping per `popSymsRev` yields exactly one value per symbol. -/
theorem popSymsRev_length {L : Type} (ss : List Symbol)
    (symbols : List (SpannedValue L)) (vs : List (L × Nat × L))
    (rest : List (SpannedValue L))
    (h : popSymsRev ss symbols = some (vs, rest)) : vs.length = ss.length := by
  induction ss generalizing symbols vs rest with
  | nil =>
    simp only [popSymsRev, Option.some.injEq, Prod.mk.injEq] at h
    rw [← h.1]
    rfl
  | cons s ss ih =>
    unfold popSymsRev at h
    cases h1 : popSymbol s symbols with
    | none => rw [h1] at h; simp at h
    | some pr =>
      obtain ⟨v, symbols1⟩ := pr
      rw [h1] at h
      dsimp only at h
      cases h2 : popSymsRev ss symbols1 with
      | none => rw [h2] at h; simp at h
      | some pr2 =>
        obtain ⟨vs2, rest2⟩ := pr2
        rw [h2] at h
        simp only [Option.some.injEq, Prod.mk.injEq] at h
        have hlen := ih symbols1 vs2 rest2 h2
        rw [← h.1]
        simp [hlen]

/-- Popping per `popSyms` yields exactly one value per symbol. -/
theorem popSyms_length {L : Type} (ss : List Symbol)
    (symbols : List (SpannedValue L)) (vs : List (L × Nat × L))
    (rest : List (SpannedValue L))
    (h : popSyms ss symbols = some (vs, rest)) : vs.length = ss.length := by
  have := popSymsRev_length ss.reverse symbols vs rest h
  rwa [List.length_reverse] at this

/-- C7: for a production with `k` symbols the generated reduction computes
the start span as the start location of the syntactically first popped
symbol when `k > 0`, else as the end location of the value on top of the
value stack, or the location default if that stack is empty; and the end
span as the end location of the last symbol when `k > 0`, else as the
lookahead's start location if available, else equal to the start span. -/
theorem reduction_span_computation {L : Type} [Inhabited L]
    (p : Production) (lookaheadStart : Option L)
    (symbols : List (SpannedValue L))
    (syms : List (L × Nat × L)) (symbols1 : List (SpannedValue L))
    (hpop : popSyms p.symbols symbols = some (syms, symbols1)) :
    syms.length = p.symbols.length
    ∧ (p.symbols = [] → syms = [] ∧ symbols1 = symbols)
    ∧ (∀ v0 rest, syms = v0 :: rest → reduceStartLoc syms symbols1 = v0.1)
    ∧ (∀ vl, syms.getLast? = some vl →
        reduceEndLoc syms lookaheadStart (reduceStartLoc syms symbols1) =
          vl.2.2)
    ∧ (syms = [] →
        (∀ w, symbols1.getLast? = some w →
            reduceStartLoc syms symbols1 = w.2.2)
        ∧ (symbols1 = [] → reduceStartLoc syms symbols1 = (default : L))
        ∧ (∀ l0, lookaheadStart = some l0 →
            reduceEndLoc syms lookaheadStart (reduceStartLoc syms symbols1) =
              l0)
        ∧ (lookaheadStart = none →
            reduceEndLoc syms lookaheadStart (reduceStartLoc syms symbols1) =
              reduceStartLoc syms symbols1)) := by
  refine ⟨popSyms_length p.symbols symbols syms symbols1 hpop, ?_, ?_, ?_, ?_⟩
  · intro h0
    rw [h0] at hpop
    simp only [popSyms, List.reverse_nil, popSymsRev, Option.some.injEq,
      Prod.mk.injEq] at hpop
    exact ⟨hpop.1.symm, hpop.2.symm⟩
  · intro v0 rest hsy
    rw [hsy]
    rfl
  · intro vl hlast
    unfold reduceEndLoc
    rw [hlast]
  · intro hsy
    subst hsy
    refine ⟨?_, ?_, ?_, ?_⟩
    · intro w hw
      unfold reduceStartLoc
      simp only [List.head?_nil]
      rw [hw]
    · intro h1
      subst h1
      rfl
    · intro l0 hl
      unfold reduceEndLoc
      simp only [List.getLast?_nil]
      rw [hl]
    · intro hl
      unfold reduceEndLoc
      simp only [List.getLast?_nil]
      rw [hl]

/-- C7 witness: popping the single symbol of `S -> "a"` with span `(0, 1)`
makes the reduction's start span `0`. -/
theorem reduction_span_computation_witness :
    reduceStartLoc [((0 : Nat), (5 : Nat), (1 : Nat))]
        ([] : List (SpannedValue Nat)) = 0 :=
  (reduction_span_computation prodSA none
      [((0 : Nat), (Symbol.Terminal "a", 5), (1 : Nat))]
      [((0 : Nat), (5 : Nat), (1 : Nat))] [] rfl).2.2.1
    ((0 : Nat), (5 : Nat), (1 : Nat)) [] rfl

/-- C10: the generated terminal classification maps an incoming token to the
index of the first terminal, in declaration order, whose pattern matches the
token's shape; when no terminal pattern matches, the driver returns an
`UnrecognizedToken` error carrying that token, before any table lookup (the
shift-loop head consults neither the tables nor the stacks). -/
theorem token_classification {L E : Type} (g : Grammar)
    (lookahead : L × Nat × L) :
    (∀ (i : Nat) (t : String), g.terminals[i]? = some t →
        g.termPattern t lookahead.2.1 = true →
        (∀ (j : Nat) (x : String), j < i → g.terminals[j]? = some x →
            g.termPattern x lookahead.2.1 = false) →
        (tokenToInteger g lookahead : Except (ParseError L E) Nat) =
          Except.ok i)
    ∧ ((∀ t ∈ g.terminals, g.termPattern t lookahead.2.1 = false) →
        ∀ rest : List (Except E (L × Nat × L)),
          shiftStep g (Except.ok lookahead :: rest) =
            ShiftStepResult.Return (Except.error
              (ParseError.UnrecognizedToken (some lookahead) []))) := by
  constructor
  · intro i t hti hp hfirst
    obtain ⟨hi, hteq⟩ := List.getElem?_eq_some.1 hti
    have hfind := find?_enumFrom_of_first
      (fun u => g.termPattern u lookahead.2.1) g.terminals 0 i hi
      (by rw [List.get_eq_getElem, hteq]; exact hp)
      (fun j hj => hfirst j (g.terminals.get ⟨j, by omega⟩) hj
        (by rw [List.get_eq_getElem]
            exact List.getElem?_eq_some.2 ⟨by omega, rfl⟩))
    unfold tokenToInteger
    rw [show (g.terminals.enum.find?
        (fun ti => g.termPattern ti.2 lookahead.2.1)) =
      some (0 + i, g.terminals.get ⟨i, hi⟩) from hfind]
    simp
  · intro hnone rest
    have hfindnone : (g.terminals.enum.find?
        (fun ti => g.termPattern ti.2 lookahead.2.1)) = none := by
      rw [List.find?_eq_none]
      rintro ⟨a, b⟩ hx
      have hx2 : (a, b) ∈ g.terminals.enumFrom 0 := hx
      have hmem := List.mem_enumFrom hx2
      have hb : b ∈ g.terminals := by
        have hba := hmem.2.2
        simp only [Nat.sub_zero] at hba
        rw [hba]
        exact List.getElem_mem _
      show ¬ g.termPattern b lookahead.2.1 = true
      rw [hnone b hb]
      decide
    have hclass : (tokenToInteger g lookahead : Except (ParseError L E) Nat) =
        Except.error (ParseError.UnrecognizedToken (some lookahead) []) := by
      unfold tokenToInteger
      rw [hfindnone]
    have hstep : shiftStep g (Except.ok lookahead :: rest) =
        (match (tokenToInteger g lookahead : Except (ParseError L E) Nat) with
          | Except.error pe => ShiftStepResult.Return (Except.error pe)
          | Except.ok i => ShiftStepResult.EnterInner lookahead i rest) := rfl
    rw [hstep, hclass]

/-- C10 witness: in the scenario grammar, the token `0` matches the first
terminal `"a"` and is classified as index 0. -/
theorem token_classification_witness :
    (tokenToInteger gA ((0 : Nat), (0 : Nat), (1 : Nat)) :
        Except (ParseError Nat Nat) Nat) = Except.ok 0 :=
  (token_classification gA ((0 : Nat), (0 : Nat), (1 : Nat))).1 0 "a" rfl rfl
    (fun j _ hj _ => absurd hj (Nat.not_lt_zero j))

end LalrpopTable
